import Mathlib

/-!
# Message-queue file transfer (4981_Assn2/server.c, mesg.h)

A shallow embedding of the client/server file-transfer program.  C `int`/`long`
values are modelled as `Int` (the arithmetic of the modelled code cannot
overflow: a quotient of 4096, a count below 4096, the constant 33268), the
fixed payload array
`char mesg_data[MAXMESSAGEDATA]` is a map from index to `char` value whose
writes are bounds-checked, and the operating system (message queue, file
system, `fork`, the uninitialised stack contents of a local `struct Mesg`) is
passed in explicitly.  `char` is signed, as on the Linux/x86 targets the
program is written for.
-/

namespace Assn2

/-! ## Constants -/

/-- Capacity of the payload array: `#define MAXMESSAGEDATA 4096`. -/
def MAXMESSAGEDATA : Int := 4096

/-- Largest process id: `#define MAX_PID 32768`. -/
def MAX_PID : Int := 32768

/-- Tag of request messages: `#define LISTEN_MSG MAX_PID + 500`. -/
def LISTEN_MSG : Int := MAX_PID + 500

/-- End-of-file value returned by `fgetc` (`EOF` of stdio.h). -/
def EOF : Int := -1

/-! ## Data model -/

/-- Ways in which the C code leaves defined behaviour. -/
inductive Fault
  | divByZero
  | outOfBounds
  deriving DecidableEq, Repr

/-- The `Mesg` record of mesg.h.  `mesg_data i` is the `char` stored at index
`i` of the payload array (only indices below `MAXMESSAGEDATA` exist). -/
structure Mesg where
  mtype : Int
  mesg_len : Int
  pid : Int
  mesg_priority : Int
  mesg_data : Nat → Int

/-- Value of an `int` in `0..255` (or `EOF`) after assignment to a signed
`char`: it wraps into `-128..127`. -/
def toSChar (v : Int) : Int := (v + 128) % 256 - 128

/-- Unsigned byte value of a `char`, as a receiver reads the payload memory. -/
def toByte (c : Int) : Nat := (c % 256).toNat

/-- Assignment `mesg_data[i] = c`; an index outside the array is a fault. -/
def storeChar (data : Nat → Int) (i : Int) (c : Int) : Except Fault (Nat → Int) :=
  if 0 ≤ i ∧ i < MAXMESSAGEDATA then
    .ok (fun j => if j = i.toNat then c else data j)
  else
    .error .outOfBounds

/-- The call `memset(mesg_data, 0, MAXMESSAGEDATA)`. -/
def memsetZero (_data : Nat → Int) : Nat → Int := fun _ => 0

/-- The call `strlen(s)` for a string given by its characters before the NUL. -/
def strlen (s : List Int) : Int := s.length

/-- Helper of `strcpy`: stores the characters of `s` from index `i` on, then
the terminating NUL. -/
def strcpyFrom (data : Nat → Int) (i : Int) : List Int → Except Fault (Nat → Int)
  | [] => storeChar data i 0
  | c :: s =>
    match storeChar data i c with
    | .error f => .error f
    | .ok data1 => strcpyFrom data1 (i + 1) s

/-- The call `strcpy(mesg_data, s)`. -/
def strcpy (data : Nat → Int) (s : List Int) : Except Fault (Nat → Int) :=
  strcpyFrom data 0 s

/-- The first `mesg_len` characters of the payload array. -/
def payload (m : Mesg) : List Int :=
  (List.range m.mesg_len.toNat).map m.mesg_data

/-- The first `mesg_len` bytes of the payload. -/
def payloadBytes (m : Mesg) : List Nat := (payload m).map toByte

/-! ## The message queue -/

/-- The queue as one process sees it: the messages the kernel accepted from it
(oldest first) and how many times it called `msgsnd`. -/
structure Queue where
  msgs : List Mesg
  calls : Nat

/-- A queue on which nothing has been sent yet. -/
def Queue.empty : Queue := ⟨[], 0⟩

/-- The system call `msgsnd(qid, omsg, length, 0)`: returns 0 and enqueues the
message, or returns -1.  `accept k` tells whether the call number `k` succeeds. -/
def msgsnd (accept : Nat → Bool) (q : Queue) (omsg : Mesg) : Int × Queue :=
  if accept q.calls then (0, ⟨q.msgs ++ [omsg], q.calls + 1⟩)
  else (-1, ⟨q.msgs, q.calls + 1⟩)

/-- The wrapper `send_message`. -/
def send_message (accept : Nat → Bool) (q : Queue) (omsg : Mesg) : Int × Queue :=
  let r := msgsnd accept q omsg
  if r.1 < 0 then (-1, r.2) else (r.1, r.2)

/-- One call of `read_message`: the value it returns (-1 when `msgrcv` failed
or no message was queued, otherwise the number of bytes received) and the
message it stored. -/
structure Poll where
  result : Int
  imsg : Mesg

/-! ## The transfer worker -/

/-- How the `while` loop of `server_transfer_proc` is left. -/
inductive LoopExit
  | ret (code : Int) (q : Queue)
  | fall (smsg : Mesg) (count : Int) (q : Queue)

/-- The `while ((c = fgetc(fp)) != EOF && (count < packetSize))` loop.  The
list holds the bytes of the file not yet read; each evaluation of the loop
condition reads one. -/
def transfer_loop (accept : Nat → Bool) (packetSize pid : Int) :
    List (Fin 256) → Mesg → Int → Queue → Except Fault LoopExit
  | [], smsg, count, q =>
    -- `fgetc` returns `EOF`, which stays -1 in `c`: the condition is false
    .ok (.fall smsg count q)
  | b :: rest, smsg, count, q =>
    let c := toSChar b.val
    if c ≠ EOF ∧ count < packetSize then
      match storeChar smsg.mesg_data count c with
      | .error f => .error f
      | .ok data1 =>
        let count1 := count + 1
        if count1 = packetSize - 1 then
          match storeChar data1 count1 0 with
          | .error f => .error f
          | .ok data2 =>
            let smsg2 := { smsg with mesg_data := data2, mesg_len := count1, mtype := pid }
            let r := send_message accept q smsg2
            if r.1 = -1 then .ok (.ret (-1) r.2)
            else
              transfer_loop accept packetSize pid rest
                { smsg2 with mesg_data := memsetZero smsg2.mesg_data } 0 r.2
        else
          transfer_loop accept packetSize pid rest { smsg with mesg_data := data1 } count1 q
    else .ok (.fall smsg count q)

/-- The string literal "File Open error". -/
def file_io_err : List Int :=
  [70, 105, 108, 101, 32, 79, 112, 101, 110, 32, 101, 114, 114, 111, 114]

/-- The function `server_transfer_proc(msg_qid, imsg)`.  `fopen` gives the
outcome of `fopen(imsg.mesg_data, "r")`: `none` for `NULL`, otherwise the bytes
of the file.  `smsg` is the content of the uninitialised local `struct Mesg`.
The result is the returned code and the queue. -/
def server_transfer_proc (accept : Nat → Bool)
    (fopen : (Nat → Int) → Option (List (Fin 256)))
    (smsg : Mesg) (q : Queue) (imsg : Mesg) : Except Fault (Int × Queue) :=
  match fopen imsg.mesg_data with
  | none =>
    match strcpy smsg.mesg_data file_io_err with
    | .error f => .error f
    | .ok data =>
      let smsg1 : Mesg :=
        { smsg with mtype := imsg.mtype, mesg_data := data,
                    mesg_len := strlen file_io_err, mesg_priority := -1 }
      let r := send_message accept q smsg1
      if r.1 > 0 then .ok (-1, r.2) else .ok (-2, r.2)
  | some file =>
    if imsg.mesg_priority = 0 then .error .divByZero
    else
      let packetSize := MAXMESSAGEDATA.tdiv imsg.mesg_priority
      match transfer_loop accept packetSize imsg.pid file smsg 0 q with
      | .error f => .error f
      | .ok (.ret code q1) => .ok (code, q1)
      | .ok (.fall smsg1 count q1) =>
        match storeChar smsg1.mesg_data count 0 with
        | .error f => .error f
        | .ok data =>
          let smsg2 : Mesg :=
            { smsg1 with mesg_data := data, mesg_len := count, mtype := imsg.pid,
                         mesg_priority := -1 }
          let r := send_message accept q1 smsg2
          if r.1 > 0 then .ok (-1, r.2) else .ok (0, r.2)

/-- Messages enqueued by a run, or `none` when the run faulted. -/
def sentMsgs {α : Type} (r : Except Fault (α × Queue)) : Option (List Mesg) :=
  match r with
  | .error _ => none
  | .ok (_, q) => some q.msgs

/-! ## The dispatcher -/

/-- Value of `fork()` as seen by the calling process. -/
inductive ForkResult
  | failed
  | child
  | parent
  deriving DecidableEq, Repr

/-- How a run of `server` over finitely many loop iterations stands. -/
inductive ServerRun
  | listening (forked : List Mesg)
  | exit666 (forked : List Mesg)
  | worker (forked : List Mesg) (imsg : Mesg) (r : Except Fault (Int × Queue))

/-- The function `server(msg_qid)`, run over the given loop iterations; each
iteration is the outcome of `read_message(msg_qid, LISTEN_MSG, &imsg)` and the
value `fork()` has if it is called.  `forked` collects the requests for which
the parent created a child; in the child the run ends after
`server_transfer_proc(msg_qid, imsg)`. -/
def server (accept : Nat → Bool) (fopen : (Nat → Int) → Option (List (Fin 256)))
    (smsg : Mesg) (q : Queue) : List (Poll × ForkResult) → List Mesg → ServerRun
  | [], forked => .listening forked
  | (p, f) :: rest, forked =>
    if p.result ≠ -1 then
      match f with
      | .failed => .exit666 forked
      | .child => .worker forked p.imsg (server_transfer_proc accept fopen smsg q p.imsg)
      | .parent => server accept fopen smsg q rest (forked ++ [p.imsg])
    else server accept fopen smsg q rest forked

/-! ## The client -/

/-- The request message `omsg` that `client` fills in before sending; `omsg0`
is the uninitialised local and `self` the value of `getpid()`. -/
def client_request (self : Int) (omsg0 : Mesg) (fname : List Int) (priority : Int) :
    Except Fault Mesg :=
  match strcpy omsg0.mesg_data fname with
  | .error f => .error f
  | .ok data =>
    .ok { omsg0 with mtype := LISTEN_MSG, mesg_data := data, mesg_priority := priority,
                     mesg_len := strlen fname, pid := self }

/-- The receive loop of `client` over the given calls of
`read_message(msg_qid, getpid(), &imsg)`.  Returns `some (code, n)` when the
function returns `code` during call number `n` (counted from 1) and `none`
when it is still looping after all the calls.  The locals `num_msg`,
`complete_msg`, `total_bytes_recv` and `curr_bytes_recv` are only written and
passed to `printf`; they take no part in the control flow and are left out. -/
def client_loop : List Poll → Nat → Option (Int × Nat)
  | [], _ => none
  | p :: rest, n =>
    if p.result > 0 then
      if p.imsg.mesg_priority < 0 then some (0, n + 1)
      else client_loop rest (n + 1)
    else client_loop rest (n + 1)

/-- The function `client(msg_qid, fname, priority)`.  `threadOk` tells whether
`pthread_create` succeeded.  The result is the returned code (`none` while
still receiving) and the queue. -/
def client (threadOk : Bool) (accept : Nat → Bool) (q : Queue) (self : Int) (omsg0 : Mesg)
    (fname : List Int) (priority : Int) (polls : List Poll) :
    Except Fault (Option Int × Queue) :=
  if threadOk = false then .ok (some (-1), q)
  else
    match client_request self omsg0 fname priority with
    | .error f => .error f
    | .ok omsg =>
      let r := send_message accept q omsg
      if r.1 = -1 then .ok (some (-2), r.2)
      else .ok ((client_loop polls 0).map Prod.fst, r.2)

/-! ## Test data -/

/-- A `Mesg` whose fields are all zero except the given priority. -/
def mesgWith (tag pid priority : Int) : Mesg :=
  { mtype := tag, mesg_len := 0, pid := pid, mesg_priority := priority, mesg_data := fun _ => 0 }

/-- A queue that accepts every message. -/
def acceptAll : Nat → Bool := fun _ => true

/-- A successful `read_message` of `m`: `msgrcv` returns the number of bytes it
copied, `sizeof(Mesg) - sizeof(long)`, which is 4112 on LP64 Linux. -/
def delivered (m : Mesg) : Poll := ⟨4112, m⟩

/-! ## Specification predicates -/

/-- Payloads of the messages, concatenated in the order of the list. -/
def concatPayload : List Mesg → List Int
  | [] => []
  | m :: ms => payload m ++ concatPayload ms

/-- Return code of a run, or `none` when the run faulted. -/
def returnCode (r : Except Fault (Int × Queue)) : Option Int :=
  match r with
  | .error _ => none
  | .ok (code, _) => some code

/-- Fault of a run, or `none` when it ran to a return. -/
def faultOf (r : Except Fault (Int × Queue)) : Option Fault :=
  match r with
  | .error f => some f
  | .ok _ => none

/-- Bytes a receiver reassembles from a run: the first `mesg_len` bytes of every
enqueued message, in order. -/
def receivedBytes (r : Except Fault (Int × Queue)) : Option (List Nat) :=
  (sentMsgs r).map fun ms => (concatPayload ms).map toByte

/-- Messages whose priority is not the sentinel value -1. -/
def nonSentinel (ms : List Mesg) : List Mesg :=
  ms.filter fun m => decide (m.mesg_priority ≠ -1)

/-- Messages whose priority is the sentinel value -1. -/
def sentinels (ms : List Mesg) : List Mesg :=
  ms.filter fun m => decide (m.mesg_priority = -1)

/-- Rounded-up quotient `ceil(a / b)` for `b > 0`, the chunk count of the
written specification. -/
def ceilDiv (a b : Int) : Int := (a + b - 1) / b

/-- Requests for which a run of `server` forked a child. -/
def ServerRun.forkedReqs : ServerRun → List Mesg
  | .listening forked => forked
  | .exit666 forked => forked
  | .worker forked _ _ => forked

/-- Result of the worker when the run of `server` is the one of a child. -/
def ServerRun.workerResult : ServerRun → Option (Except Fault (Int × Queue))
  | .worker _ _ r => some r
  | _ => none

/-- Messages a sequence of `read_message` calls received (result other than -1). -/
def received (polls : List Poll) : List Mesg :=
  (polls.filter fun p => decide (p.result ≠ -1)).map Poll.imsg

/-- The calls of `read_message` by which a client receives, in order, every
message a run enqueued. -/
def deliverRun (r : Except Fault (Int × Queue)) : List Poll :=
  match sentMsgs r with
  | none => []
  | some ms => ms.map delivered

/-- A queue that refuses every message. -/
def acceptNone : Nat → Bool := fun _ => false

/-- A message whose length lies inside the payload array and whose payload is
followed by the NUL terminator. -/
def Terminated (m : Mesg) : Prop :=
  0 ≤ m.mesg_len ∧ m.mesg_len < MAXMESSAGEDATA ∧ m.mesg_data m.mesg_len.toNat = 0

/-- The queue with which the loop is left. -/
def LoopExit.queue : LoopExit → Queue
  | .ret _ q => q
  | .fall _ _ q => q

/-- The characters the worker stores for the bytes of a file. -/
def fileChars (file : List (Fin 256)) : List Int := file.map fun b => toSChar b.val

/-- Bound kept by `count` at every evaluation of the loop condition. -/
def CountOK (packetSize count : Int) : Prop :=
  0 ≤ count ∧ (count + 1 < packetSize ∨ (packetSize ≤ 1 ∧ count ≤ 1))

/-- Header fields of a message sent from inside the loop. -/
def IsChunk (packetSize pid prio : Int) (m : Mesg) : Prop :=
  m.mtype = pid ∧ m.mesg_len = packetSize - 1 ∧ m.mesg_priority = prio

/-- What is known when the loop is left, whatever the file and the queue do:
the messages `new` were enqueued after those of `q`, and each is a chunk. -/
def LoopPost (packetSize pid prio : Int) (q : Queue) : LoopExit → Prop
  | .ret code q1 =>
    code = -1 ∧ ∃ new, q1.msgs = q.msgs ++ new ∧ ∀ m ∈ new, IsChunk packetSize pid prio m
  | .fall smsg1 count1 q1 =>
    0 ≤ count1 ∧ count1 < MAXMESSAGEDATA ∧ smsg1.mesg_priority = prio ∧
      ∃ new, q1.msgs = q.msgs ++ new ∧ ∀ m ∈ new, IsChunk packetSize pid prio m

/-! ## Lemmas on the primitives -/

theorem storeChar_ok (data : Nat → Int) (i c : Int) (h0 : 0 ≤ i) (h1 : i < 4096) :
    storeChar data i c = .ok (fun j => if j = i.toNat then c else data j) := by
  simp [storeChar, MAXMESSAGEDATA, h0, h1]

theorem send_message_fst (accept : Nat → Bool) (q : Queue) (m : Mesg) :
    (send_message accept q m).1 = if accept q.calls then 0 else -1 := by
  cases h : accept q.calls <;> simp [send_message, msgsnd, h]

theorem send_message_msgs (accept : Nat → Bool) (q : Queue) (m : Mesg) :
    (send_message accept q m).2.msgs = if accept q.calls then q.msgs ++ [m] else q.msgs := by
  cases h : accept q.calls <;> simp [send_message, msgsnd, h]

theorem send_message_calls (accept : Nat → Bool) (q : Queue) (m : Mesg) :
    (send_message accept q m).2.calls = q.calls + 1 := by
  cases h : accept q.calls <;> simp [send_message, msgsnd, h]

theorem send_message_cases (accept : Nat → Bool) (q : Queue) (m : Mesg) :
    ((send_message accept q m).1 = 0 ∧ (send_message accept q m).2.msgs = q.msgs ++ [m]) ∨
    ((send_message accept q m).1 = -1 ∧ (send_message accept q m).2.msgs = q.msgs) := by
  cases h : accept q.calls <;> simp [send_message, msgsnd, h]

/-! ## The loop never faults and only sends chunks -/

theorem loopPost_cons (packetSize pid prio : Int) (q q1 : Queue) (M : Mesg) (e : LoopExit)
    (hM : IsChunk packetSize pid prio M) (hq : q1.msgs = q.msgs ++ [M])
    (h : LoopPost packetSize pid prio q1 e) : LoopPost packetSize pid prio q e := by
  cases e with
  | ret code q2 =>
    obtain ⟨hcode, new, hq2, hnew⟩ := h
    refine ⟨hcode, M :: new, ?_, ?_⟩
    · rw [hq2, hq]; simp
    · intro m hmem
      rcases List.mem_cons.1 hmem with rfl | hmem
      · exact hM
      · exact hnew m hmem
  | fall smsg1 count1 q2 =>
    obtain ⟨hc0, hc1, hprio, new, hq2, hnew⟩ := h
    refine ⟨hc0, hc1, hprio, M :: new, ?_, ?_⟩
    · rw [hq2, hq]; simp
    · intro m hmem
      rcases List.mem_cons.1 hmem with rfl | hmem
      · exact hM
      · exact hnew m hmem

theorem transfer_loop_safe (accept : Nat → Bool) (packetSize pid : Int)
    (hps : packetSize ≤ 4096) :
    ∀ (file : List (Fin 256)) (smsg : Mesg) (count : Int) (q : Queue),
      CountOK packetSize count →
      ∃ e, transfer_loop accept packetSize pid file smsg count q = .ok e ∧
        LoopPost packetSize pid smsg.mesg_priority q e := by
  intro file
  induction file with
  | nil =>
    intro smsg count q hc
    refine ⟨.fall smsg count q, rfl, ?_⟩
    obtain ⟨h0, h1⟩ := hc
    refine ⟨h0, ?_, rfl, [], by simp, by simp⟩
    simp only [MAXMESSAGEDATA]; omega
  | cons b rest ih =>
    intro smsg count q hc
    obtain ⟨h0, h1⟩ := hc
    have hfall : LoopPost packetSize pid smsg.mesg_priority q (.fall smsg count q) := by
      refine ⟨h0, ?_, rfl, [], by simp, by simp⟩
      simp only [MAXMESSAGEDATA]; omega
    have key : ∀ M : Mesg, IsChunk packetSize pid smsg.mesg_priority M →
        ∃ e, (if (send_message accept q M).1 = -1 then
                (.ok (.ret (-1) (send_message accept q M).2) : Except Fault LoopExit)
              else transfer_loop accept packetSize pid rest
                { M with mesg_data := memsetZero M.mesg_data } 0 (send_message accept q M).2)
            = .ok e ∧ LoopPost packetSize pid smsg.mesg_priority q e := by
      intro M hM
      rcases send_message_cases accept q M with ⟨h1, h2⟩ | ⟨h1, h2⟩
      · rw [if_neg (by rw [h1]; decide)]
        obtain ⟨e, he, hpost⟩ := ih { M with mesg_data := memsetZero M.mesg_data } 0
          (send_message accept q M).2 ⟨le_refl 0, by
            have := hM.2.1
            omega⟩
        refine ⟨e, he, loopPost_cons _ _ _ q _ M e hM h2 ?_⟩
        have hp : M.mesg_priority = smsg.mesg_priority := hM.2.2
        simpa [hp] using hpost
      · rw [if_pos h1]
        exact ⟨_, rfl, rfl, [], by simp [h2], by simp⟩
    simp only [transfer_loop]
    by_cases hcond : toSChar (b.val : Int) ≠ EOF ∧ count < packetSize
    · rw [if_pos hcond]
      obtain ⟨_, hlt⟩ := hcond
      rw [storeChar_ok _ _ _ h0 (by omega)]
      simp only []
      by_cases hfull : count + 1 = packetSize - 1
      · rw [if_pos hfull, storeChar_ok _ _ _ (by omega) (by omega)]
        exact key _ ⟨rfl, hfull, rfl⟩
      · rw [if_neg hfull]
        exact ih _ (count + 1) q ⟨by omega, by omega⟩
    · rw [if_neg hcond]
      exact ⟨_, rfl, hfall⟩

/-! ## Shape of a transfer of an opened file -/

theorem packetSize_bounds (p : Int) (hp : 1 ≤ p) :
    0 ≤ MAXMESSAGEDATA.tdiv p ∧ MAXMESSAGEDATA.tdiv p ≤ 4096 := by
  have h : MAXMESSAGEDATA.tdiv p = 4096 / p := by
    simp only [MAXMESSAGEDATA]
    exact Int.tdiv_eq_ediv (by decide) (by omega)
  rw [h]
  exact ⟨Int.ediv_nonneg (by decide) (by omega), Int.ediv_le_self _ (by decide)⟩

theorem server_transfer_proc_shape (accept : Nat → Bool)
    (fopen : (Nat → Int) → Option (List (Fin 256))) (smsg : Mesg) (q : Queue) (imsg : Mesg)
    (file : List (Fin 256)) (hopen : fopen imsg.mesg_data = some file)
    (hp : 1 ≤ imsg.mesg_priority) :
    ∃ code q1 chunks tail,
      server_transfer_proc accept fopen smsg q imsg = .ok (code, q1) ∧
      q1.msgs = q.msgs ++ chunks ++ tail ∧
      (∀ m ∈ chunks,
        IsChunk (MAXMESSAGEDATA.tdiv imsg.mesg_priority) imsg.pid smsg.mesg_priority m) ∧
      (∀ m ∈ tail, m.mtype = imsg.pid ∧ m.mesg_priority = -1 ∧
        0 ≤ m.mesg_len ∧ m.mesg_len < MAXMESSAGEDATA) ∧
      tail.length ≤ 1 := by
  obtain ⟨hps0, hps⟩ := packetSize_bounds imsg.mesg_priority hp
  obtain ⟨e, he, hpost⟩ := transfer_loop_safe accept (MAXMESSAGEDATA.tdiv imsg.mesg_priority)
    imsg.pid hps file smsg 0 q ⟨le_refl 0, by omega⟩
  have hne : ¬ imsg.mesg_priority = 0 := by omega
  simp only [server_transfer_proc, hopen, if_neg hne, he]
  cases e with
  | ret code q1 =>
    obtain ⟨_, new, hq, hnew⟩ := hpost
    exact ⟨code, q1, new, [], rfl, by simp [hq], hnew, by simp, by simp⟩
  | fall smsg1 count q1 =>
    obtain ⟨hc0, hc1, _, new, hq, hnew⟩ := hpost
    simp only [MAXMESSAGEDATA] at hc1
    simp only [storeChar_ok _ _ _ hc0 hc1]
    have key : ∀ M : Mesg, M.mtype = imsg.pid → M.mesg_priority = -1 → M.mesg_len = count →
        ∃ code q2 chunks tail,
          (if (send_message accept q1 M).1 > 0 then
              (.ok (-1, (send_message accept q1 M).2) : Except Fault (Int × Queue))
            else .ok (0, (send_message accept q1 M).2)) = .ok (code, q2) ∧
          q2.msgs = q.msgs ++ chunks ++ tail ∧
          (∀ m ∈ chunks,
            IsChunk (MAXMESSAGEDATA.tdiv imsg.mesg_priority) imsg.pid smsg.mesg_priority m) ∧
          (∀ m ∈ tail, m.mtype = imsg.pid ∧ m.mesg_priority = -1 ∧
            0 ≤ m.mesg_len ∧ m.mesg_len < MAXMESSAGEDATA) ∧
          tail.length ≤ 1 := by
      intro M hM1 hM2 hM3
      rcases send_message_cases accept q1 M with ⟨h1, h2⟩ | ⟨h1, h2⟩
      · rw [if_neg (by rw [h1]; decide)]
        refine ⟨0, _, new, [M], rfl, by simp [h2, hq], hnew, ?_, by simp⟩
        intro m hm
        rw [List.mem_singleton.1 hm]
        refine ⟨hM1, hM2, by omega, ?_⟩
        simp only [MAXMESSAGEDATA]
        omega
      · rw [if_neg (by rw [h1]; decide)]
        exact ⟨0, _, new, [], rfl, by simp [h2, hq], hnew, by simp, by simp⟩
    exact key _ rfl rfl rfl

/-! ## Exact behaviour of the loop when every send succeeds -/

theorem toSChar_ne_EOF (b : Fin 256) (hb : b ≠ 255) : toSChar (b.val : Int) ≠ EOF := by
  have h1 : b.val < 256 := b.isLt
  have h2 : b.val ≠ 255 := fun h => hb (Fin.ext h)
  simp only [toSChar, EOF]
  omega

theorem map_store_of_le (d : Nat → Int) (c : Int) (k n : Nat) (h : k ≤ n) :
    (List.range k).map (fun j => if j = n then c else d j) = (List.range k).map d := by
  apply List.map_congr_left
  intro j hj
  have : j < k := List.mem_range.1 hj
  rw [if_neg (by omega)]

theorem map_store_succ (d : Nat → Int) (c : Int) (k : Nat) :
    (List.range (k + 1)).map (fun j => if j = k then c else d j) = (List.range k).map d ++ [c] := by
  rw [List.range_succ, List.map_append, map_store_of_le d c k k (le_refl k)]
  simp

theorem concatPayload_append (xs ys : List Mesg) :
    concatPayload (xs ++ ys) = concatPayload xs ++ concatPayload ys := by
  induction xs with
  | nil => rfl
  | cons x xs ih => simp [concatPayload, ih]

theorem transfer_loop_exact (accept : Nat → Bool) (hacc : ∀ k, accept k = true)
    (packetSize pid : Int) (hps2 : 2 ≤ packetSize) (hps : packetSize ≤ 4096) :
    ∀ (file : List (Fin 256)), (∀ b ∈ file, b ≠ 255) →
      ∀ (smsg : Mesg) (count : Int) (q : Queue), 0 ≤ count → count + 1 < packetSize →
      ∃ smsg1 count1 q1 new,
        transfer_loop accept packetSize pid file smsg count q = .ok (.fall smsg1 count1 q1) ∧
        q1.msgs = q.msgs ++ new ∧ 0 ≤ count1 ∧ count1 + 1 < packetSize ∧
        count + (file.length : Int) = (new.length : Int) * (packetSize - 1) + count1 ∧
        concatPayload new ++ (List.range count1.toNat).map smsg1.mesg_data =
          (List.range count.toNat).map smsg.mesg_data ++ fileChars file := by
  intro file
  induction file with
  | nil =>
    intro _ smsg count q h0 h1
    exact ⟨smsg, count, q, [], rfl, by simp, h0, h1, by simp, by simp [concatPayload, fileChars]⟩
  | cons b rest ih =>
    intro hff smsg count q h0 h1
    have hb : toSChar (b.val : Int) ≠ EOF := toSChar_ne_EOF b (hff b (List.mem_cons_self _ _))
    have hrest : ∀ x ∈ rest, x ≠ 255 := fun x hx => hff x (List.mem_cons_of_mem _ hx)
    have key : ∀ M : Mesg, M.mesg_len = count + 1 → count + 1 = packetSize - 1 →
        (List.range (count + 1).toNat).map M.mesg_data =
          (List.range count.toNat).map smsg.mesg_data ++ [toSChar (b.val : Int)] →
        ∃ smsg1 count1 q1 new,
          (if (send_message accept q M).1 = -1 then
                (.ok (.ret (-1) (send_message accept q M).2) : Except Fault LoopExit)
              else transfer_loop accept packetSize pid rest
                { M with mesg_data := memsetZero M.mesg_data } 0 (send_message accept q M).2)
            = .ok (.fall smsg1 count1 q1) ∧
          q1.msgs = q.msgs ++ new ∧ 0 ≤ count1 ∧ count1 + 1 < packetSize ∧
          count + ((b :: rest).length : Int) = (new.length : Int) * (packetSize - 1) + count1 ∧
          concatPayload new ++ (List.range count1.toNat).map smsg1.mesg_data =
            (List.range count.toNat).map smsg.mesg_data ++ fileChars (b :: rest) := by
      intro M hlen hfull hdata
      have hfst : (send_message accept q M).1 = 0 := by
        rw [send_message_fst, hacc]; rfl
      have hmsgs : (send_message accept q M).2.msgs = q.msgs ++ [M] := by
        rw [send_message_msgs, hacc]; rfl
      rw [if_neg (by rw [hfst]; decide)]
      obtain ⟨smsg1, count1, q1, new, he, hq, hc0, hc1, hcnt, hpay⟩ :=
        ih hrest { M with mesg_data := memsetZero M.mesg_data } 0
          (send_message accept q M).2 (le_refl 0) (by omega)
      refine ⟨smsg1, count1, q1, M :: new, he, by simp [hq, hmsgs], hc0, hc1, ?_, ?_⟩
      · have e1 : (((M :: new).length : Nat) : Int) * (packetSize - 1) =
            (new.length : Int) * (packetSize - 1) + (packetSize - 1) := by
          simp only [List.length_cons]; push_cast; ring
        have e2 : (((b :: rest).length : Nat) : Int) = (rest.length : Int) + 1 := by
          simp only [List.length_cons]; push_cast; ring
        rw [e1, e2]
        omega
      · simp only [concatPayload, payload, hlen, List.append_assoc, hpay, hdata]
        simp [fileChars]
    simp only [transfer_loop]
    rw [if_pos ⟨hb, by omega⟩, storeChar_ok _ _ _ h0 (by omega)]
    simp only []
    by_cases hfull : count + 1 = packetSize - 1
    · rw [if_pos hfull, storeChar_ok _ _ _ (by omega) (by omega)]
      refine key _ rfl hfull ?_
      have hn : (count + 1).toNat = count.toNat + 1 := by omega
      simp only [hn]
      rw [map_store_of_le _ _ _ _ (le_refl _)]
      exact map_store_succ _ _ _
    · rw [if_neg hfull]
      obtain ⟨smsg1, count1, q1, new, he, hq, hc0, hc1, hcnt, hpay⟩ :=
        ih hrest _ (count + 1) q (by omega) (by omega)
      refine ⟨smsg1, count1, q1, new, he, hq, hc0, hc1, ?_, ?_⟩
      · have e2 : (((b :: rest).length : Nat) : Int) = (rest.length : Int) + 1 := by
          simp only [List.length_cons]; push_cast; ring
        rw [e2]
        omega
      · rw [hpay]
        have hn : (count + 1).toNat = count.toNat + 1 := by omega
        simp only [hn]
        rw [map_store_succ]
        simp [fileChars]

theorem packetSize_ge_two (p : Int) (hp1 : 1 ≤ p) (hp2 : p ≤ 2048) :
    2 ≤ MAXMESSAGEDATA.tdiv p := by
  have h : MAXMESSAGEDATA.tdiv p = 4096 / p := by
    simp only [MAXMESSAGEDATA]
    exact Int.tdiv_eq_ediv (by decide) (by omega)
  rw [h]
  exact (Int.le_ediv_iff_mul_le (by omega)).2 (by omega)

/-- Transfer of an opened file when `1 ≤ priority ≤ 2048`, no byte of the file
is 0xFF and the queue accepts every message: the run returns 0, the queue
receives the chunks and then one final message, and the counts and contents
are as given. -/
theorem server_transfer_proc_exact (accept : Nat → Bool) (hacc : ∀ k, accept k = true)
    (fopen : (Nat → Int) → Option (List (Fin 256))) (smsg : Mesg) (q : Queue) (imsg : Mesg)
    (file : List (Fin 256)) (hopen : fopen imsg.mesg_data = some file)
    (hp1 : 1 ≤ imsg.mesg_priority) (hp2 : imsg.mesg_priority ≤ 2048)
    (hff : ∀ b ∈ file, b ≠ 255) :
    ∃ q1 chunks last,
      server_transfer_proc accept fopen smsg q imsg = .ok (0, q1) ∧
      q1.msgs = q.msgs ++ chunks ++ [last] ∧
      (∀ m ∈ chunks,
        IsChunk (MAXMESSAGEDATA.tdiv imsg.mesg_priority) imsg.pid smsg.mesg_priority m) ∧
      last.mtype = imsg.pid ∧ last.mesg_priority = -1 ∧
      0 ≤ last.mesg_len ∧ last.mesg_len < MAXMESSAGEDATA.tdiv imsg.mesg_priority - 1 ∧
      (file.length : Int) =
        (chunks.length : Int) * (MAXMESSAGEDATA.tdiv imsg.mesg_priority - 1) + last.mesg_len ∧
      concatPayload (chunks ++ [last]) = fileChars file := by
  obtain ⟨_, hps⟩ := packetSize_bounds imsg.mesg_priority hp1
  have hps2 := packetSize_ge_two imsg.mesg_priority hp1 hp2
  obtain ⟨e, he, hpost⟩ := transfer_loop_safe accept (MAXMESSAGEDATA.tdiv imsg.mesg_priority)
    imsg.pid hps file smsg 0 q ⟨le_refl 0, by omega⟩
  obtain ⟨smsg1, count1, q1, new, he1, hq, hc0, hc1, hcnt, hpay⟩ :=
    transfer_loop_exact accept hacc (MAXMESSAGEDATA.tdiv imsg.mesg_priority) imsg.pid hps2 hps
      file hff smsg 0 q (le_refl 0) (by omega)
  rw [he1] at he
  cases he
  obtain ⟨_, _, _, new1, hq1, hnew1⟩ := hpost
  have hnn : new1 = new := List.append_cancel_left (hq1.symm.trans hq)
  subst hnn
  have hne : ¬ imsg.mesg_priority = 0 := by omega
  simp only [server_transfer_proc, hopen, if_neg hne, he1]
  simp only [storeChar_ok _ _ _ hc0 (by omega : count1 < 4096)]
  have key : ∀ M : Mesg, M.mtype = imsg.pid → M.mesg_priority = -1 → M.mesg_len = count1 →
      payload M = (List.range count1.toNat).map smsg1.mesg_data →
      ∃ q2 chunks last,
        (if (send_message accept q1 M).1 > 0 then
            (.ok (-1, (send_message accept q1 M).2) : Except Fault (Int × Queue))
          else .ok (0, (send_message accept q1 M).2)) = .ok (0, q2) ∧
        q2.msgs = q.msgs ++ chunks ++ [last] ∧
        (∀ m ∈ chunks,
          IsChunk (MAXMESSAGEDATA.tdiv imsg.mesg_priority) imsg.pid smsg.mesg_priority m) ∧
        last.mtype = imsg.pid ∧ last.mesg_priority = -1 ∧
        0 ≤ last.mesg_len ∧ last.mesg_len < MAXMESSAGEDATA.tdiv imsg.mesg_priority - 1 ∧
        (file.length : Int) =
          (chunks.length : Int) * (MAXMESSAGEDATA.tdiv imsg.mesg_priority - 1)
            + last.mesg_len ∧
        concatPayload (chunks ++ [last]) = fileChars file := by
    intro M hM1 hM2 hM3 hM4
    have hfst : (send_message accept q1 M).1 = 0 := by
      rw [send_message_fst, hacc]; rfl
    have hmsgs : (send_message accept q1 M).2.msgs = q1.msgs ++ [M] := by
      rw [send_message_msgs, hacc]; rfl
    rw [if_neg (by rw [hfst]; decide)]
    refine ⟨_, new1, M, rfl, by rw [hmsgs, hq], hnew1, hM1, hM2, by omega, by omega,
      by rw [hM3]; omega, ?_⟩
    rw [concatPayload_append]
    simp only [concatPayload, List.append_nil, hM4, hpay]
    rfl
  refine key _ rfl rfl rfl ?_
  simp only [payload]
  exact map_store_of_le _ _ _ _ (le_refl _)

/-! ## Claims about the transfer worker -/

/-- C1 (the code breaks it): the bytes a receiver reassembles are not always
the file.  With priority 1 and the three-byte file 0x41 0xFF 0x42 the worker
takes the byte 0xFF for `EOF` and only 0x41 arrives; with priority 4096 and the
file 0x41 0x42 the packet size is 1 and only 0x41 arrives. -/
theorem transfer_drops_bytes :
    receivedBytes (server_transfer_proc acceptAll (fun _ => some [65, 255, 66])
        (mesgWith 0 0 0) Queue.empty (mesgWith LISTEN_MSG 1234 1)) = some [65] ∧
    receivedBytes (server_transfer_proc acceptAll (fun _ => some [65, 255, 66])
        (mesgWith 0 0 0) Queue.empty (mesgWith LISTEN_MSG 1234 1)) ≠ some [65, 255, 66] ∧
    receivedBytes (server_transfer_proc acceptAll (fun _ => some [65, 66])
        (mesgWith 0 0 0) Queue.empty (mesgWith LISTEN_MSG 1234 4096)) = some [65] := by
  decide

/-- C2 (the code breaks it): the priority of a chunk is never assigned, so it
is whatever the uninitialised local record holds.  When that is -1, a one-byte
file at priority 2048 is answered by two messages that both have priority -1. -/
theorem chunk_priority_uninitialised :
    (sentMsgs (server_transfer_proc acceptAll (fun _ => some [65])
        (mesgWith 0 0 (-1)) Queue.empty (mesgWith LISTEN_MSG 1234 2048))).map
      (List.map Mesg.mesg_priority) = some [-1, -1] ∧
    (sentMsgs (server_transfer_proc acceptAll (fun _ => some [65])
        (mesgWith 0 0 (-1)) Queue.empty (mesgWith LISTEN_MSG 1234 2048))).map
      (fun ms => (sentinels ms).length) = some 2 := by
  decide

/-- C3 (the code breaks it): when the file cannot be opened the single message
sent has priority -1, length 15 and payload "File Open error", but its tag is
the tag of the request (33268), not the requester id (1234). -/
theorem open_failure_reply_tag :
    (sentMsgs (server_transfer_proc acceptAll (fun _ => none)
        (mesgWith 0 0 0) Queue.empty (mesgWith LISTEN_MSG 1234 1))).map
      (List.map fun m => (m.mtype, m.mesg_priority, m.mesg_len, payload m)) =
      some [(33268, -1, 15, file_io_err)] ∧
    (mesgWith LISTEN_MSG 1234 1).pid = 1234 ∧
    returnCode (server_transfer_proc acceptAll (fun _ => none)
        (mesgWith 0 0 0) Queue.empty (mesgWith LISTEN_MSG 1234 1)) = some (-2) := by
  decide

/-- C4 as stated fails: for priority 1 and a one-byte file no message other
than the sentinel is sent, while `ceil(1 / (4096 / 1 - 1)) = 1`. -/
theorem chunk_count_not_ceil :
    (sentMsgs (server_transfer_proc acceptAll (fun _ => some [65])
        (mesgWith 0 0 0) Queue.empty (mesgWith LISTEN_MSG 1234 1))).map
      (fun ms => ((nonSentinel ms).length : Int)) = some 0 ∧
    (sentMsgs (server_transfer_proc acceptAll (fun _ => some [65])
        (mesgWith 0 0 0) Queue.empty (mesgWith LISTEN_MSG 1234 1))).map
      (fun ms => ((nonSentinel ms).length : Int)) ≠
        some (ceilDiv (([65] : List (Fin 256)).length) (MAXMESSAGEDATA.tdiv 1 - 1)) ∧
    ceilDiv (([65] : List (Fin 256)).length) (MAXMESSAGEDATA.tdiv 1 - 1) = 1 := by
  decide

/-- C4 amended: for `1 ≤ priority ≤ 2048`, a file of `S` bytes none of which is
0xFF, a queue that accepts every message and an uninitialised priority field
other than -1, the run sends `floor(S / (4096 / priority - 1)) + 1` messages, of
which `floor(S / (4096 / priority - 1))` have a priority other than -1. -/
theorem chunk_count_floor (accept : Nat → Bool) (hacc : ∀ k, accept k = true)
    (fopen : (Nat → Int) → Option (List (Fin 256))) (smsg imsg : Mesg)
    (file : List (Fin 256)) (hopen : fopen imsg.mesg_data = some file)
    (hp1 : 1 ≤ imsg.mesg_priority) (hp2 : imsg.mesg_priority ≤ 2048)
    (hff : ∀ b ∈ file, b ≠ 255) (hprio : smsg.mesg_priority ≠ -1) :
    (sentMsgs (server_transfer_proc accept fopen smsg Queue.empty imsg)).map
        (fun ms => ((nonSentinel ms).length : Int)) =
      some ((file.length : Int) / (MAXMESSAGEDATA.tdiv imsg.mesg_priority - 1)) ∧
    (sentMsgs (server_transfer_proc accept fopen smsg Queue.empty imsg)).map
        (fun ms => (ms.length : Int)) =
      some ((file.length : Int) / (MAXMESSAGEDATA.tdiv imsg.mesg_priority - 1) + 1) := by
  obtain ⟨q1, chunks, last, hrun, hq, hchunks, _, hlp, hl0, hl1, hcnt, _⟩ :=
    server_transfer_proc_exact accept hacc fopen smsg Queue.empty imsg file hopen hp1 hp2 hff
  have hps2 := packetSize_ge_two imsg.mesg_priority hp1 hp2
  have hdiv : (file.length : Int) / (MAXMESSAGEDATA.tdiv imsg.mesg_priority - 1) =
      (chunks.length : Int) := by
    have h := (Int.ediv_emod_unique (a := (file.length : Int))
      (b := MAXMESSAGEDATA.tdiv imsg.mesg_priority - 1) (r := last.mesg_len)
      (q := (chunks.length : Int)) (by omega)).2
      ⟨by rw [hcnt]; ring, hl0, hl1⟩
    exact h.1
  have hms : q1.msgs = chunks ++ [last] := by simpa [Queue.empty] using hq
  have hfilter : nonSentinel (chunks ++ [last]) = chunks := by
    simp only [nonSentinel, List.filter_append]
    have h1 : List.filter (fun m => decide (m.mesg_priority ≠ -1)) chunks = chunks := by
      apply List.filter_eq_self.2
      intro m hm
      have := (hchunks m hm).2.2
      simp [this, hprio]
    have h2 : List.filter (fun m => decide (m.mesg_priority ≠ -1)) [last] = [] := by
      simp [hlp]
    rw [h1, h2, List.append_nil]
  simp only [hrun, sentMsgs, hms, Option.map_some', hfilter, hdiv, List.length_append,
    List.length_singleton]
  simp

/-- Instance of `chunk_count_floor`: priority 1024 (three data bytes per chunk)
and a seven-byte file. -/
theorem chunk_count_floor_witness :
    (sentMsgs (server_transfer_proc acceptAll (fun _ => some [1, 2, 3, 4, 5, 6, 7])
        (mesgWith 0 0 0) Queue.empty (mesgWith LISTEN_MSG 1234 1024))).map
        (fun ms => ((nonSentinel ms).length : Int)) =
      some (((([1, 2, 3, 4, 5, 6, 7] : List (Fin 256))).length : Int) /
        (MAXMESSAGEDATA.tdiv (mesgWith LISTEN_MSG 1234 1024).mesg_priority - 1)) ∧
    (sentMsgs (server_transfer_proc acceptAll (fun _ => some [1, 2, 3, 4, 5, 6, 7])
        (mesgWith 0 0 0) Queue.empty (mesgWith LISTEN_MSG 1234 1024))).map
        (fun ms => (ms.length : Int)) =
      some (((([1, 2, 3, 4, 5, 6, 7] : List (Fin 256))).length : Int) /
        (MAXMESSAGEDATA.tdiv (mesgWith LISTEN_MSG 1234 1024).mesg_priority - 1) + 1) :=
  chunk_count_floor acceptAll (fun _ => rfl) (fun _ => some [1, 2, 3, 4, 5, 6, 7])
    (mesgWith 0 0 0) (mesgWith LISTEN_MSG 1234 1024) [1, 2, 3, 4, 5, 6, 7] rfl
    (by decide) (by decide) (by simp) (by decide)

/-- C6: for every request with priority at least 1 whose file opens, every
message the worker enqueues (chunks and sentinel) has the requester id of the
request as its tag, whatever the tag of the request, the file, the
uninitialised record and the outcome of the sends. -/
theorem response_tag_is_requester (accept : Nat → Bool)
    (fopen : (Nat → Int) → Option (List (Fin 256))) (smsg imsg : Mesg)
    (file : List (Fin 256)) (hopen : fopen imsg.mesg_data = some file)
    (hp : 1 ≤ imsg.mesg_priority) :
    ∃ ms, sentMsgs (server_transfer_proc accept fopen smsg Queue.empty imsg) = some ms ∧
      ∀ m ∈ ms, m.mtype = imsg.pid := by
  obtain ⟨code, q1, chunks, tail, hrun, hq, hchunks, htail, _⟩ :=
    server_transfer_proc_shape accept fopen smsg Queue.empty imsg file hopen hp
  refine ⟨q1.msgs, by rw [hrun]; rfl, ?_⟩
  intro m hm
  rw [hq] at hm
  simp only [Queue.empty, List.nil_append, List.mem_append] at hm
  rcases hm with hm | hm
  · exact (hchunks m hm).1
  · exact (htail m hm).1

/-- Instance of `response_tag_is_requester`: requester 1234, priority 2048 and
a three-byte file. -/
theorem response_tag_is_requester_witness :
    ∃ ms, sentMsgs (server_transfer_proc acceptAll (fun _ => some [65, 66, 67])
        (mesgWith 0 0 0) Queue.empty (mesgWith LISTEN_MSG 1234 2048)) = some ms ∧
      ∀ m ∈ ms, m.mtype = (mesgWith LISTEN_MSG 1234 2048).pid :=
  response_tag_is_requester acceptAll (fun _ => some [65, 66, 67]) (mesgWith 0 0 0)
    (mesgWith LISTEN_MSG 1234 2048) [65, 66, 67] rfl (by decide)

/-- C7 (the code breaks it): for priority 4 and a 2500-byte file whose first
byte is 0xFF the only message sent is the sentinel with length 0, not messages
of lengths 1023, 1023 and 454. -/
theorem lengths_for_2500_bytes_starting_0xFF :
    (255 :: List.replicate 2499 (65 : Fin 256)).length = 2500 ∧
    (sentMsgs (server_transfer_proc acceptAll
        (fun _ => some (255 :: List.replicate 2499 (65 : Fin 256)))
        (mesgWith 0 0 0) Queue.empty (mesgWith LISTEN_MSG 1234 4))).map
      (List.map Mesg.mesg_len) = some [0] := by
  constructor
  · rw [List.length_cons, List.length_replicate]
  · decide

/-- C8: for every priority at least 1, the transfer of a zero-byte file on a
queue that accepts the message returns 0 and enqueues exactly one message; it
has priority -1, length 0 and the requester id as tag. -/
theorem zero_byte_file_one_sentinel (accept : Nat → Bool)
    (fopen : (Nat → Int) → Option (List (Fin 256))) (smsg imsg : Mesg)
    (hopen : fopen imsg.mesg_data = some []) (hp : 1 ≤ imsg.mesg_priority)
    (hacc : accept 0 = true) :
    returnCode (server_transfer_proc accept fopen smsg Queue.empty imsg) = some 0 ∧
    ∃ m, sentMsgs (server_transfer_proc accept fopen smsg Queue.empty imsg) = some [m] ∧
      m.mesg_priority = -1 ∧ m.mesg_len = 0 ∧ m.mtype = imsg.pid := by
  have hne : ¬ imsg.mesg_priority = 0 := by omega
  simp only [server_transfer_proc, hopen, if_neg hne, transfer_loop,
    storeChar_ok _ _ _ (le_refl 0) (by decide : (0 : Int) < 4096)]
  simp [send_message, msgsnd, Queue.empty, hacc, returnCode, sentMsgs]

/-- Instance of `zero_byte_file_one_sentinel`: priority 7. -/
theorem zero_byte_file_one_sentinel_witness :
    returnCode (server_transfer_proc acceptAll (fun _ => some []) (mesgWith 0 0 0)
        Queue.empty (mesgWith LISTEN_MSG 1234 7)) = some 0 ∧
    ∃ m, sentMsgs (server_transfer_proc acceptAll (fun _ => some []) (mesgWith 0 0 0)
        Queue.empty (mesgWith LISTEN_MSG 1234 7)) = some [m] ∧
      m.mesg_priority = -1 ∧ m.mesg_len = 0 ∧ m.mtype = (mesgWith LISTEN_MSG 1234 7).pid :=
  zero_byte_file_one_sentinel acceptAll (fun _ => some []) (mesgWith 0 0 0)
    (mesgWith LISTEN_MSG 1234 7) rfl (by decide) rfl

/-! ## Claims about the dispatcher -/

theorem received_cons (p : Poll) (polls : List Poll) :
    received (p :: polls) =
      if p.result ≠ -1 then p.imsg :: received polls else received polls := by
  by_cases h : p.result = -1 <;> simp [received, List.filter_cons, h]

theorem server_parent_run (accept : Nat → Bool)
    (fopen : (Nat → Int) → Option (List (Fin 256))) (smsg : Mesg) (q : Queue)
    (rest : List (Poll × ForkResult)) :
    ∀ (pre : List Poll) (forked : List Mesg),
      server accept fopen smsg q (pre.map (fun p => (p, ForkResult.parent)) ++ rest) forked =
        server accept fopen smsg q rest (forked ++ received pre) := by
  intro pre
  induction pre with
  | nil => intro forked; simp [received]
  | cons p pre ih =>
    intro forked
    simp only [List.map_cons, List.cons_append, server, received_cons]
    by_cases h : p.result ≠ -1
    · rw [if_pos h, if_pos h]
      exact (ih (forked ++ [p.imsg])).trans (by simp)
    · rw [if_neg h, if_neg h]
      exact ih forked

/-- C5 as stated fails: a request with priority 0 and payload length 0 is not
dropped.  The parent records a forked child for it, and the child runs the
worker, whose division `MAXMESSAGEDATA / 0` faults once the file has opened. -/
theorem dispatcher_does_not_validate :
    ((server acceptAll (fun _ => some []) (mesgWith 0 0 0) Queue.empty
        [(delivered (mesgWith LISTEN_MSG 1234 0), ForkResult.parent)] []).forkedReqs.map
      fun m => (m.mesg_priority, m.mesg_len)) = [(0, 0)] ∧
    (server acceptAll (fun _ => some []) (mesgWith 0 0 0) Queue.empty
        [(delivered (mesgWith LISTEN_MSG 1234 0), ForkResult.child)] []).workerResult.map
      faultOf = some (some Fault.divByZero) := by
  decide

/-- C5 amended: the server loop does not validate.  For every message it
receives on the reserved tag (`read_message` returns something other than -1),
whatever its priority and payload length, the parent forks a child for it, and
the child runs `server_transfer_proc` on exactly that message. -/
theorem server_forks_for_every_request (accept : Nat → Bool)
    (fopen : (Nat → Int) → Option (List (Fin 256))) (smsg : Mesg) (q : Queue)
    (pre : List Poll) (p : Poll) (forked : List Mesg) (hrecv : p.result ≠ -1) :
    server accept fopen smsg q
        (pre.map (fun x => (x, ForkResult.parent)) ++ [(p, ForkResult.parent)]) forked =
      .listening (forked ++ received pre ++ [p.imsg]) ∧
    server accept fopen smsg q
        (pre.map (fun x => (x, ForkResult.parent)) ++ [(p, ForkResult.child)]) forked =
      .worker (forked ++ received pre) p.imsg
        (server_transfer_proc accept fopen smsg q p.imsg) := by
  constructor
  · rw [server_parent_run]
    simp only [server, if_pos hrecv]
  · rw [server_parent_run]
    simp only [server, if_pos hrecv]

/-- Instance of `server_forks_for_every_request`: a request with priority 0
arriving after one with priority 3. -/
theorem server_forks_for_every_request_witness :
    server acceptAll (fun _ => some []) (mesgWith 0 0 0) Queue.empty
        ([delivered (mesgWith LISTEN_MSG 77 3)].map (fun x => (x, ForkResult.parent)) ++
          [(delivered (mesgWith LISTEN_MSG 1234 0), ForkResult.parent)]) [] =
      .listening ([] ++ received [delivered (mesgWith LISTEN_MSG 77 3)] ++
        [(delivered (mesgWith LISTEN_MSG 1234 0)).imsg]) ∧
    server acceptAll (fun _ => some []) (mesgWith 0 0 0) Queue.empty
        ([delivered (mesgWith LISTEN_MSG 77 3)].map (fun x => (x, ForkResult.parent)) ++
          [(delivered (mesgWith LISTEN_MSG 1234 0), ForkResult.child)]) [] =
      .worker ([] ++ received [delivered (mesgWith LISTEN_MSG 77 3)])
        (delivered (mesgWith LISTEN_MSG 1234 0)).imsg
        (server_transfer_proc acceptAll (fun _ => some []) (mesgWith 0 0 0) Queue.empty
          (delivered (mesgWith LISTEN_MSG 1234 0)).imsg) :=
  server_forks_for_every_request acceptAll (fun _ => some []) (mesgWith 0 0 0) Queue.empty
    [delivered (mesgWith LISTEN_MSG 77 3)] (delivered (mesgWith LISTEN_MSG 1234 0)) []
    (by decide)

/-! ## Claims about the client -/

/-- C9 (the code breaks it): the receive loop tests `mesg_priority < 0`, not
`== -1` as the header of `client` says, so it ends on a message whose priority
is -2.  Of two delivered messages with priorities -2 and -1 the first one
already makes `client` return 0; and when the worker answers a two-byte file at
priority 2048 with its unassigned priority field holding -2, the messages have
priorities -2, -2, -1 and the client returns at the first of the three. -/
theorem client_stops_on_other_negative :
    client_loop [delivered (mesgWith 1234 0 (-2)), delivered (mesgWith 1234 0 (-1))] 0 =
      some (0, 1) ∧
    (delivered (mesgWith 1234 0 (-2))).imsg.mesg_priority ≠ -1 ∧
    (sentMsgs (server_transfer_proc acceptAll (fun _ => some [65, 66])
        (mesgWith 0 0 (-2)) Queue.empty (mesgWith LISTEN_MSG 1234 2048))).map
      (List.map Mesg.mesg_priority) = some [-2, -2, -1] ∧
    client_loop (deliverRun (server_transfer_proc acceptAll (fun _ => some [65, 66])
        (mesgWith 0 0 (-2)) Queue.empty (mesgWith LISTEN_MSG 1234 2048))) 0 =
      some (0, 1) := by
  decide

/-- Behaviour of the receive loop as coded: it returns 0 at the first
successfully read message whose priority is negative, and is still running
after any calls of `read_message` that delivered only messages with priority
at least 0. -/
theorem client_stops_at_first_negative (pre : List Poll) (x : Poll) (post : List Poll)
    (n : Nat) (hpre : ∀ p ∈ pre, p.result > 0 → 0 ≤ p.imsg.mesg_priority)
    (hx : x.result > 0) (hneg : x.imsg.mesg_priority < 0) :
    client_loop (pre ++ x :: post) n = some (0, n + pre.length + 1) ∧
    client_loop pre n = none := by
  induction pre generalizing n with
  | nil => simp [client_loop, hx, hneg]
  | cons p pre ih =>
    have hp := hpre p (List.mem_cons_self _ _)
    have hrest : ∀ y ∈ pre, y.result > 0 → 0 ≤ y.imsg.mesg_priority :=
      fun y hy => hpre y (List.mem_cons_of_mem _ hy)
    obtain ⟨h1, h2⟩ := ih (n + 1) hrest
    simp only [List.cons_append, client_loop, List.length_cons]
    by_cases hr : p.result > 0
    · have hnn : ¬ p.imsg.mesg_priority < 0 := by have := hp hr; omega
      rw [if_pos hr, if_neg hnn, if_pos hr, if_neg hnn]
      have e : n + 1 + pre.length + 1 = n + (pre.length + 1) + 1 := by omega
      exact ⟨h1.trans (by rw [e]), h2⟩
    · rw [if_neg hr, if_neg hr]
      have e : n + 1 + pre.length + 1 = n + (pre.length + 1) + 1 := by omega
      exact ⟨h1.trans (by rw [e]), h2⟩

/-- Instance of `client_stops_at_first_negative`: two chunks with priority 4,
then a message with priority -2, then one with priority -1. -/
theorem client_stops_at_first_negative_witness :
    client_loop ([delivered (mesgWith 1234 0 4), delivered (mesgWith 1234 0 4)] ++
        delivered (mesgWith 1234 0 (-2)) :: [delivered (mesgWith 1234 0 (-1))]) 0 =
      some (0, 0 + [delivered (mesgWith 1234 0 4), delivered (mesgWith 1234 0 4)].length + 1) ∧
    client_loop [delivered (mesgWith 1234 0 4), delivered (mesgWith 1234 0 4)] 0 = none :=
  client_stops_at_first_negative [delivered (mesgWith 1234 0 4), delivered (mesgWith 1234 0 4)]
    (delivered (mesgWith 1234 0 (-2))) [delivered (mesgWith 1234 0 (-1))] 0
    (by intro p hp _; simp at hp; subst hp; decide)
    (by decide) (by decide)

theorem strcpyFrom_spec (s : List Int) :
    ∀ (data : Nat → Int) (i : Nat), (i : Int) + s.length < 4096 →
      ∃ data1, strcpyFrom data i s = .ok data1 ∧ (∀ j, j < i → data1 j = data j) ∧
        (List.range s.length).map (fun j => data1 (i + j)) = s ∧ data1 (i + s.length) = 0 := by
  induction s with
  | nil =>
    intro data i h
    simp only [List.length_nil, Nat.cast_zero, add_zero] at h
    refine ⟨_, by rw [strcpyFrom, storeChar_ok _ _ _ (by omega) h], ?_, by simp, by simp⟩
    intro j hj
    have : j ≠ ((i : Nat) : Int).toNat := by omega
    exact if_neg this
  | cons c s ih =>
    intro data i h
    simp only [List.length_cons, Nat.cast_succ] at h
    obtain ⟨data1, h1, h2, h3, h4⟩ :=
      ih (fun j => if j = ((i : Nat) : Int).toNat then c else data j) (i + 1)
        (by push_cast; omega)
    have hcast : (((i + 1 : Nat)) : Int) = (i : Int) + 1 := by push_cast; rfl
    rw [hcast] at h1
    refine ⟨data1, ?_, ?_, ?_, ?_⟩
    · rw [strcpyFrom, storeChar_ok _ _ _ (by omega) (by omega)]
      exact h1
    · intro j hj
      rw [h2 j (by omega)]
      have : j ≠ ((i : Nat) : Int).toNat := by omega
      exact if_neg this
    · have hi : data1 i = c := by
        rw [h2 i (by omega)]
        simp
      rw [List.length_cons, List.range_succ_eq_map, List.map_cons, List.map_map]
      have hfun : ((fun j => data1 (i + j)) ∘ Nat.succ) = fun j => data1 (i + 1 + j) := by
        funext j
        simp only [Function.comp, Nat.succ_eq_add_one]
        congr 1
        omega
      rw [hfun, h3]
      simp [hi]
    · have e : i + (c :: s).length = i + 1 + s.length := by
        simp only [List.length_cons]; omega
      rw [e]
      exact h4

/-- C10: for every file name that fits the payload array with its terminator
and every priority, on a queue that accepts the message, `client` enqueues one
request whose tag is `LISTEN_MSG = MAX_PID + 500 = 33268`, whose requester id is
the process id of the client, whose priority is the supplied value, whose
payload is the file name (followed by NUL) and whose length is the length of
the file name. -/
theorem client_request_fields (accept : Nat → Bool) (self : Int) (omsg0 : Mesg)
    (fname : List Int) (priority : Int) (polls : List Poll)
    (hfit : (fname.length : Int) < MAXMESSAGEDATA) (hacc : accept 0 = true) :
    ∃ m, sentMsgs (client true accept Queue.empty self omsg0 fname priority polls) = some [m] ∧
      client_request self omsg0 fname priority = .ok m ∧
      m.mtype = LISTEN_MSG ∧ LISTEN_MSG = MAX_PID + 500 ∧ LISTEN_MSG = 33268 ∧
      m.pid = self ∧ m.mesg_priority = priority ∧
      payload m = fname ∧ m.mesg_data fname.length = 0 ∧ m.mesg_len = fname.length := by
  simp only [MAXMESSAGEDATA] at hfit
  obtain ⟨data1, h1, _, h3, h4⟩ := strcpyFrom_spec fname omsg0.mesg_data 0 (by simpa using hfit)
  simp only [Nat.cast_zero, zero_add] at h1 h3 h4
  have hreq : client_request self omsg0 fname priority =
      .ok { omsg0 with mtype := LISTEN_MSG, mesg_data := data1, mesg_priority := priority,
                       mesg_len := strlen fname, pid := self } := by
    simp only [client_request, strcpy, h1]
  refine ⟨_, ?_, hreq, rfl, rfl, rfl, rfl, rfl, ?_, h4, rfl⟩
  · simp [client, hreq, send_message, msgsnd, Queue.empty, hacc, sentMsgs]
  · simpa [payload, strlen] using h3

/-- Instance of `client_request_fields`: the client with process id 1234 asks
for the file "a.c" at priority 4. -/
theorem client_request_fields_witness :
    ∃ m, sentMsgs (client true acceptAll Queue.empty 1234 (mesgWith 0 0 0) [97, 46, 99] 4
          []) = some [m] ∧
      client_request 1234 (mesgWith 0 0 0) [97, 46, 99] 4 = .ok m ∧
      m.mtype = LISTEN_MSG ∧ LISTEN_MSG = MAX_PID + 500 ∧ LISTEN_MSG = 33268 ∧
      m.pid = 1234 ∧ m.mesg_priority = 4 ∧
      payload m = [97, 46, 99] ∧ m.mesg_data ([97, 46, 99] : List Int).length = 0 ∧
      m.mesg_len = (([97, 46, 99] : List Int).length : Int) :=
  client_request_fields acceptAll 1234 (mesgWith 0 0 0) [97, 46, 99] 4 [] (by decide) rfl

/-! ## Return codes, payload bounds and the chunk-size policy -/

/-- C11 (the code breaks it): a failed send of the final message does not make
`server_transfer_proc` return -1.  On a queue that refuses every message the
transfer of an opened zero-byte file returns 0 although nothing was enqueued;
a failed chunk send (one-byte file, priority 2048) does return -1, and an open
failure returns -2. -/
theorem failed_final_send_returns_zero :
    returnCode (server_transfer_proc acceptNone (fun _ => some [])
        (mesgWith 0 0 0) Queue.empty (mesgWith LISTEN_MSG 1234 1)) = some 0 ∧
    (sentMsgs (server_transfer_proc acceptNone (fun _ => some [])
        (mesgWith 0 0 0) Queue.empty (mesgWith LISTEN_MSG 1234 1))).map List.length = some 0 ∧
    returnCode (server_transfer_proc acceptNone (fun _ => some [65])
        (mesgWith 0 0 0) Queue.empty (mesgWith LISTEN_MSG 1234 2048)) = some (-1) ∧
    returnCode (server_transfer_proc acceptNone (fun _ => none)
        (mesgWith 0 0 0) Queue.empty (mesgWith LISTEN_MSG 1234 1)) = some (-2) := by
  decide

/-- C13: the packet size `MAXMESSAGEDATA / priority` computed by the worker is
antitone in the priority: for `1 ≤ p1 ≤ p2` the packet size for `p2` is at most
the one for `p1`. -/
theorem packetSize_antitone (p1 p2 : Int) (h1 : 1 ≤ p1) (h12 : p1 ≤ p2) :
    MAXMESSAGEDATA.tdiv p2 ≤ MAXMESSAGEDATA.tdiv p1 := by
  have e1 : MAXMESSAGEDATA.tdiv p1 = 4096 / p1 := by
    simp only [MAXMESSAGEDATA]
    exact Int.tdiv_eq_ediv (by decide) (by omega)
  have e2 : MAXMESSAGEDATA.tdiv p2 = 4096 / p2 := by
    simp only [MAXMESSAGEDATA]
    exact Int.tdiv_eq_ediv (by decide) (by omega)
  rw [e1, e2]
  apply (Int.le_ediv_iff_mul_le (by omega : 0 < p1)).2
  have hq : 0 ≤ (4096 : Int) / p2 := Int.ediv_nonneg (by decide) (by omega)
  have hle : (4096 : Int) / p2 * p2 ≤ 4096 := Int.ediv_mul_le 4096 (by omega)
  calc (4096 : Int) / p2 * p1 ≤ 4096 / p2 * p2 := Int.mul_le_mul_of_nonneg_left h12 hq
    _ ≤ 4096 := hle

/-- Instance of `packetSize_antitone`: priorities 3 and 5 give packet sizes
1365 and 819. -/
theorem packetSize_antitone_witness :
    MAXMESSAGEDATA.tdiv 5 ≤ MAXMESSAGEDATA.tdiv 3 :=
  packetSize_antitone 3 5 (by decide) (by decide)

/-! ## Every message sent is NUL-terminated inside the array -/

theorem transfer_loop_terminated (accept : Nat → Bool) (packetSize pid : Int)
    (hps : packetSize ≤ 4096) :
    ∀ (file : List (Fin 256)) (smsg : Mesg) (count : Int) (q : Queue),
      CountOK packetSize count →
      ∀ e, transfer_loop accept packetSize pid file smsg count q = .ok e →
        ∃ new, e.queue.msgs = q.msgs ++ new ∧ ∀ m ∈ new, Terminated m := by
  intro file
  induction file with
  | nil =>
    intro smsg count q _ e he
    simp only [transfer_loop, Except.ok.injEq] at he
    subst he
    exact ⟨[], by simp [LoopExit.queue], by simp⟩
  | cons b rest ih =>
    intro smsg count q hc e
    obtain ⟨h0, h1⟩ := hc
    have key : ∀ M : Mesg, Terminated M → 0 < M.mesg_len → M.mesg_len + 1 = packetSize →
        (if (send_message accept q M).1 = -1 then
            (.ok (.ret (-1) (send_message accept q M).2) : Except Fault LoopExit)
          else transfer_loop accept packetSize pid rest
            { M with mesg_data := memsetZero M.mesg_data } 0 (send_message accept q M).2)
          = .ok e →
        ∃ new, e.queue.msgs = q.msgs ++ new ∧ ∀ m ∈ new, Terminated m := by
      intro M hM hpos hlen
      rcases send_message_cases accept q M with ⟨h1, h2⟩ | ⟨h1, h2⟩
      · rw [if_neg (by rw [h1]; decide)]
        intro he
        obtain ⟨new, hq, hnew⟩ := ih _ 0 _ ⟨le_refl 0, by omega⟩ e he
        refine ⟨M :: new, by rw [hq, h2]; simp, ?_⟩
        intro m hm
        rcases List.mem_cons.1 hm with rfl | hm
        · exact hM
        · exact hnew m hm
      · rw [if_pos h1]
        intro he
        simp only [Except.ok.injEq] at he
        subst he
        exact ⟨[], by simp [LoopExit.queue, h2], by simp⟩
    simp only [transfer_loop]
    by_cases hcond : toSChar (b.val : Int) ≠ EOF ∧ count < packetSize
    · rw [if_pos hcond]
      obtain ⟨_, hlt⟩ := hcond
      rw [storeChar_ok _ _ _ h0 (by omega)]
      simp only []
      by_cases hfull : count + 1 = packetSize - 1
      · rw [if_pos hfull, storeChar_ok _ _ _ (by omega) (by omega)]
        refine key _ ⟨?_, ?_, ?_⟩ ?_ ?_
        · show 0 ≤ count + 1
          omega
        · show count + 1 < MAXMESSAGEDATA
          simp only [MAXMESSAGEDATA]; omega
        · show (if (count + 1).toNat = (count + 1).toNat then (0 : Int) else _) = 0
          rw [if_pos rfl]
        · show 0 < count + 1
          omega
        · show count + 1 + 1 = packetSize
          omega
      · rw [if_neg hfull]
        exact ih _ (count + 1) q ⟨by omega, by omega⟩ e
    · rw [if_neg hcond]
      intro he
      simp only [Except.ok.injEq] at he
      subst he
      exact ⟨[], by simp [LoopExit.queue], by simp⟩

/-- Transfer of an opened file at a priority of at least 1: the run does not
fault, and every message it enqueues is NUL-terminated inside the array. -/
theorem server_transfer_proc_terminated (accept : Nat → Bool)
    (fopen : (Nat → Int) → Option (List (Fin 256))) (smsg : Mesg) (q : Queue) (imsg : Mesg)
    (file : List (Fin 256)) (hopen : fopen imsg.mesg_data = some file)
    (hp : 1 ≤ imsg.mesg_priority) :
    ∃ code q1 new,
      server_transfer_proc accept fopen smsg q imsg = .ok (code, q1) ∧
      q1.msgs = q.msgs ++ new ∧ ∀ m ∈ new, Terminated m := by
  obtain ⟨_, hps⟩ := packetSize_bounds imsg.mesg_priority hp
  obtain ⟨e, he, hpost⟩ := transfer_loop_safe accept (MAXMESSAGEDATA.tdiv imsg.mesg_priority)
    imsg.pid hps file smsg 0 q ⟨le_refl 0, by omega⟩
  obtain ⟨new, hq, hnew⟩ := transfer_loop_terminated accept
    (MAXMESSAGEDATA.tdiv imsg.mesg_priority) imsg.pid hps file smsg 0 q
    ⟨le_refl 0, by omega⟩ e he
  have hne : ¬ imsg.mesg_priority = 0 := by omega
  simp only [server_transfer_proc, hopen, if_neg hne, he]
  cases e with
  | ret code q1 => exact ⟨code, q1, new, rfl, hq, hnew⟩
  | fall smsg1 count q1 =>
    obtain ⟨hc0, hc1, _⟩ := hpost
    simp only [MAXMESSAGEDATA] at hc1
    simp only [LoopExit.queue] at hq
    simp only [storeChar_ok _ _ _ hc0 hc1]
    have key : ∀ M : Mesg, Terminated M →
        ∃ code q2 new2,
          (if (send_message accept q1 M).1 > 0 then
              (.ok (-1, (send_message accept q1 M).2) : Except Fault (Int × Queue))
            else .ok (0, (send_message accept q1 M).2)) = .ok (code, q2) ∧
          q2.msgs = q.msgs ++ new2 ∧ ∀ m ∈ new2, Terminated m := by
      intro M hM
      rcases send_message_cases accept q1 M with ⟨h1, h2⟩ | ⟨h1, h2⟩
      · rw [if_neg (by rw [h1]; decide)]
        refine ⟨0, _, new ++ [M], rfl, by rw [h2, hq]; simp, ?_⟩
        intro m hm
        rcases List.mem_append.1 hm with hm | hm
        · exact hnew m hm
        · rw [List.mem_singleton.1 hm]
          exact hM
      · rw [if_neg (by rw [h1]; decide)]
        exact ⟨0, _, new, rfl, by rw [h2, hq], hnew⟩
    refine key _ ⟨hc0, ?_, ?_⟩
    · show count < MAXMESSAGEDATA
      simp only [MAXMESSAGEDATA]; exact hc1
    · show (if count.toNat = count.toNat then (0 : Int) else _) = 0
      rw [if_pos rfl]

theorem storeChar_error_iff (data : Nat → Int) (i c : Int) :
    storeChar data i c = .error .outOfBounds ↔ ¬ (0 ≤ i ∧ i < 4096) := by
  by_cases h : 0 ≤ i ∧ i < 4096
  · simp [storeChar, MAXMESSAGEDATA, h]
  · simp [storeChar, MAXMESSAGEDATA, h]

/-- Reply to a request whose file cannot be opened: the run returns -2 and
enqueues at most one message (none when the queue refuses it); the message has
the tag of the request, priority -1, length 15 and is NUL-terminated. -/
theorem server_transfer_proc_open_failure (accept : Nat → Bool)
    (fopen : (Nat → Int) → Option (List (Fin 256))) (smsg : Mesg) (q : Queue) (imsg : Mesg)
    (hopen : fopen imsg.mesg_data = none) :
    ∃ q1 tail,
      server_transfer_proc accept fopen smsg q imsg = .ok (-2, q1) ∧
      q1.msgs = q.msgs ++ tail ∧ tail.length ≤ 1 ∧
      ∀ m ∈ tail, m.mtype = imsg.mtype ∧ m.mesg_priority = -1 ∧ m.mesg_len = 15 ∧
        payload m = file_io_err ∧ Terminated m := by
  obtain ⟨data1, h1, _, h3, h4⟩ := strcpyFrom_spec file_io_err smsg.mesg_data 0 (by decide)
  simp only [Nat.cast_zero, zero_add] at h1 h3 h4
  simp only [server_transfer_proc, hopen, strcpy, h1]
  have key : ∀ M : Mesg, M.mtype = imsg.mtype → M.mesg_priority = -1 → M.mesg_len = 15 →
      M.mesg_data = data1 →
      ∃ q1 tail,
        (if (send_message accept q M).1 > 0 then
            (.ok (-1, (send_message accept q M).2) : Except Fault (Int × Queue))
          else .ok (-2, (send_message accept q M).2)) = .ok (-2, q1) ∧
        q1.msgs = q.msgs ++ tail ∧ tail.length ≤ 1 ∧
        ∀ m ∈ tail, m.mtype = imsg.mtype ∧ m.mesg_priority = -1 ∧ m.mesg_len = 15 ∧
          payload m = file_io_err ∧ Terminated m := by
    intro M hM1 hM2 hM3 hM4
    rcases send_message_cases accept q M with ⟨h1, h2⟩ | ⟨h1, h2⟩
    · rw [if_neg (by rw [h1]; decide)]
      refine ⟨_, [M], rfl, h2, by simp, ?_⟩
      intro m hm
      rw [List.mem_singleton.1 hm]
      refine ⟨hM1, hM2, hM3, ?_, ?_, ?_, ?_⟩
      · simp only [payload, hM3, hM4]
        exact h3
      · rw [hM3]; decide
      · rw [hM3]; decide
      · rw [hM3, hM4]
        exact h4
    · rw [if_neg (by rw [h1]; decide)]
      exact ⟨_, [], rfl, by simp [h2], by simp, by simp⟩
  exact key _ rfl rfl rfl rfl

theorem toByte_toSChar (b : Fin 256) : toByte (toSChar (b.val : Int)) = b.val := by
  have h : b.val < 256 := b.isLt
  simp only [toByte, toSChar]
  omega

theorem fileChars_toByte (file : List (Fin 256)) :
    (fileChars file).map toByte = file.map Fin.val := by
  simp only [fileChars, List.map_map]
  apply List.map_congr_left
  intro b _
  exact toByte_toSChar b

/-- C12: for every request whose file cannot be opened or whose priority is at
least 1, every message `server_transfer_proc` enqueues has a length between 0
and `MAXMESSAGEDATA`, whatever the file, the uninitialised record and the
outcome of the sends. -/
theorem payload_length_bounded (accept : Nat → Bool)
    (fopen : (Nat → Int) → Option (List (Fin 256))) (smsg imsg : Mesg)
    (h : fopen imsg.mesg_data = none ∨ 1 ≤ imsg.mesg_priority) :
    ∃ ms, sentMsgs (server_transfer_proc accept fopen smsg Queue.empty imsg) = some ms ∧
      ∀ m ∈ ms, 0 ≤ m.mesg_len ∧ m.mesg_len ≤ MAXMESSAGEDATA := by
  cases hopen : fopen imsg.mesg_data with
  | none =>
    obtain ⟨q1, tail, hrun, hq, _, htail⟩ :=
      server_transfer_proc_open_failure accept fopen smsg Queue.empty imsg hopen
    refine ⟨q1.msgs, by rw [hrun]; rfl, ?_⟩
    intro m hm
    rw [hq] at hm
    simp only [Queue.empty, List.nil_append] at hm
    obtain ⟨_, _, hlen, _, _⟩ := htail m hm
    rw [hlen]
    decide
  | some file =>
    have hp : 1 ≤ imsg.mesg_priority := by
      rcases h with h | h
      · rw [hopen] at h; cases h
      · exact h
    obtain ⟨code, q1, new, hrun, hq, hnew⟩ :=
      server_transfer_proc_terminated accept fopen smsg Queue.empty imsg file hopen hp
    refine ⟨q1.msgs, by rw [hrun]; rfl, ?_⟩
    intro m hm
    rw [hq] at hm
    simp only [Queue.empty, List.nil_append] at hm
    obtain ⟨h0, h1, _⟩ := hnew m hm
    exact ⟨h0, le_of_lt h1⟩

/-- Instances of `payload_length_bounded`: a five-byte file at priority 1024,
and a file that cannot be opened. -/
theorem payload_length_bounded_witness :
    (∃ ms, sentMsgs (server_transfer_proc acceptAll (fun _ => some [1, 2, 3, 4, 5])
        (mesgWith 0 0 0) Queue.empty (mesgWith LISTEN_MSG 1234 1024)) = some ms ∧
      ∀ m ∈ ms, 0 ≤ m.mesg_len ∧ m.mesg_len ≤ MAXMESSAGEDATA) ∧
    (∃ ms, sentMsgs (server_transfer_proc acceptAll (fun _ => none)
        (mesgWith 0 0 0) Queue.empty (mesgWith LISTEN_MSG 1234 0)) = some ms ∧
      ∀ m ∈ ms, 0 ≤ m.mesg_len ∧ m.mesg_len ≤ MAXMESSAGEDATA) :=
  ⟨payload_length_bounded acceptAll (fun _ => some [1, 2, 3, 4, 5]) (mesgWith 0 0 0)
      (mesgWith LISTEN_MSG 1234 1024) (Or.inr (by decide)),
    payload_length_bounded acceptAll (fun _ => none) (mesgWith 0 0 0)
      (mesgWith LISTEN_MSG 1234 0) (Or.inl rfl)⟩

/-- Transfer counted by position: for `1 ≤ priority ≤ 2048`, a file of `S` bytes
none of which is 0xFF and a queue that accepts every message, the bytes of all
messages sent, taken in order up to each `mesg_len`, are the file; the messages
are `floor(S / (4096 / priority - 1))` chunks of `4096 / priority - 1` bytes (their
priority is the field the worker leaves unassigned) followed by the final
message (priority -1), which carries `S mod (4096 / priority - 1)` bytes. -/
theorem transfer_exact_without_0xFF (accept : Nat → Bool) (hacc : ∀ k, accept k = true)
    (fopen : (Nat → Int) → Option (List (Fin 256))) (smsg imsg : Mesg)
    (file : List (Fin 256)) (hopen : fopen imsg.mesg_data = some file)
    (hp1 : 1 ≤ imsg.mesg_priority) (hp2 : imsg.mesg_priority ≤ 2048)
    (hff : ∀ b ∈ file, b ≠ 255) :
    receivedBytes (server_transfer_proc accept fopen smsg Queue.empty imsg) =
      some (file.map Fin.val) ∧
    ∃ chunks last,
      sentMsgs (server_transfer_proc accept fopen smsg Queue.empty imsg) =
        some (chunks ++ [last]) ∧
      (chunks.length : Int) =
        (file.length : Int) / (MAXMESSAGEDATA.tdiv imsg.mesg_priority - 1) ∧
      (∀ m ∈ chunks, m.mesg_len = MAXMESSAGEDATA.tdiv imsg.mesg_priority - 1 ∧
        m.mesg_priority = smsg.mesg_priority) ∧
      last.mesg_priority = -1 ∧
      last.mesg_len = (file.length : Int) % (MAXMESSAGEDATA.tdiv imsg.mesg_priority - 1) := by
  obtain ⟨q1, chunks, last, hrun, hq, hchunks, _, hlp, hl0, hl1, hcnt, hcat⟩ :=
    server_transfer_proc_exact accept hacc fopen smsg Queue.empty imsg file hopen hp1 hp2 hff
  have hps2 := packetSize_ge_two imsg.mesg_priority hp1 hp2
  have hdm := (Int.ediv_emod_unique (a := (file.length : Int))
      (b := MAXMESSAGEDATA.tdiv imsg.mesg_priority - 1) (r := last.mesg_len)
      (q := (chunks.length : Int)) (by omega)).2
      ⟨by rw [hcnt]; ring, hl0, hl1⟩
  have hms : q1.msgs = chunks ++ [last] := by simpa [Queue.empty] using hq
  constructor
  · simp only [receivedBytes, hrun, sentMsgs, hms, Option.map_some', hcat, fileChars_toByte]
  · refine ⟨chunks, last, ?_, hdm.1.symm, fun m hm => (hchunks m hm).2, hlp, hdm.2.symm⟩
    simp only [hrun, sentMsgs, hms]

/-- Instance of `transfer_exact_without_0xFF`: priority 1024 (three data bytes
per chunk) and a seven-byte file. -/
theorem transfer_exact_without_0xFF_witness :
    receivedBytes (server_transfer_proc acceptAll (fun _ => some [1, 2, 3, 4, 5, 6, 200])
        (mesgWith 0 0 0) Queue.empty (mesgWith LISTEN_MSG 1234 1024)) =
      some (([1, 2, 3, 4, 5, 6, 200] : List (Fin 256)).map Fin.val) ∧
    ∃ chunks last,
      sentMsgs (server_transfer_proc acceptAll (fun _ => some [1, 2, 3, 4, 5, 6, 200])
        (mesgWith 0 0 0) Queue.empty (mesgWith LISTEN_MSG 1234 1024)) =
        some (chunks ++ [last]) ∧
      (chunks.length : Int) =
        ((([1, 2, 3, 4, 5, 6, 200] : List (Fin 256))).length : Int) /
          (MAXMESSAGEDATA.tdiv (mesgWith LISTEN_MSG 1234 1024).mesg_priority - 1) ∧
      (∀ m ∈ chunks,
        m.mesg_len = MAXMESSAGEDATA.tdiv (mesgWith LISTEN_MSG 1234 1024).mesg_priority - 1 ∧
        m.mesg_priority = (mesgWith 0 0 0).mesg_priority) ∧
      last.mesg_priority = -1 ∧
      last.mesg_len = ((([1, 2, 3, 4, 5, 6, 200] : List (Fin 256))).length : Int) %
        (MAXMESSAGEDATA.tdiv (mesgWith LISTEN_MSG 1234 1024).mesg_priority - 1) :=
  transfer_exact_without_0xFF acceptAll (fun _ => rfl)
    (fun _ => some [1, 2, 3, 4, 5, 6, 200]) (mesgWith 0 0 0) (mesgWith LISTEN_MSG 1234 1024)
    [1, 2, 3, 4, 5, 6, 200] rfl (by decide) (by decide) (by simp)

/-- C14 (the code breaks it): the chunks are not always non-sentinel messages.
The worker never assigns the priority of a chunk, so with the unassigned field
holding -1, priority 2048 and the one-byte file 0x41 (no 0xFF byte, every send
accepted) both messages sent have priority -1: the number of messages with a
priority other than -1 is 0 while `floor(1 / (4096 / 2048 - 1)) = 1`.  The bytes
still arrive: the receiver reassembles 0x41, and the last message carries
`1 mod 1 = 0` bytes. -/
theorem chunk_counted_as_sentinel :
    (sentMsgs (server_transfer_proc acceptAll (fun _ => some [65])
        (mesgWith 0 0 (-1)) Queue.empty (mesgWith LISTEN_MSG 1234 2048))).map
      (fun ms => ((nonSentinel ms).length : Int)) = some 0 ∧
    ((([65] : List (Fin 256))).length : Int) / (MAXMESSAGEDATA.tdiv 2048 - 1) = 1 ∧
    (sentMsgs (server_transfer_proc acceptAll (fun _ => some [65])
        (mesgWith 0 0 (-1)) Queue.empty (mesgWith LISTEN_MSG 1234 2048))).map
      (List.map fun m => (m.mesg_priority, m.mesg_len)) = some [(-1, 1), (-1, 0)] ∧
    receivedBytes (server_transfer_proc acceptAll (fun _ => some [65])
        (mesgWith 0 0 (-1)) Queue.empty (mesgWith LISTEN_MSG 1234 2048)) = some [65] := by
  decide

/-- C15: for every priority of at least 1 and every file, the run of
`server_transfer_proc` on the opened file does not fault, that is, each of its
writes into the payload array is at an index from 0 to 4095 (a write outside
is `Fault.outOfBounds`), and in every message it enqueues the character at
index `mesg_len` is NUL. -/
theorem writes_in_bounds_and_terminated (accept : Nat → Bool)
    (fopen : (Nat → Int) → Option (List (Fin 256))) (smsg imsg : Mesg)
    (file : List (Fin 256)) (hopen : fopen imsg.mesg_data = some file)
    (hp : 1 ≤ imsg.mesg_priority) :
    faultOf (server_transfer_proc accept fopen smsg Queue.empty imsg) = none ∧
    ∃ ms, sentMsgs (server_transfer_proc accept fopen smsg Queue.empty imsg) = some ms ∧
      ∀ m ∈ ms, 0 ≤ m.mesg_len ∧ m.mesg_len ≤ 4095 ∧ m.mesg_data m.mesg_len.toNat = 0 := by
  obtain ⟨code, q1, new, hrun, hq, hnew⟩ :=
    server_transfer_proc_terminated accept fopen smsg Queue.empty imsg file hopen hp
  refine ⟨by rw [hrun]; rfl, q1.msgs, by rw [hrun]; rfl, ?_⟩
  intro m hm
  rw [hq] at hm
  simp only [Queue.empty, List.nil_append] at hm
  obtain ⟨h0, h1, h2⟩ := hnew m hm
  simp only [MAXMESSAGEDATA] at h1
  exact ⟨h0, by omega, h2⟩

/-- Instance of `writes_in_bounds_and_terminated`: priority 1 (packet size
4096) and a three-byte file. -/
theorem writes_in_bounds_and_terminated_witness :
    faultOf (server_transfer_proc acceptAll (fun _ => some [65, 255, 66]) (mesgWith 0 0 0)
        Queue.empty (mesgWith LISTEN_MSG 1234 1)) = none ∧
    ∃ ms, sentMsgs (server_transfer_proc acceptAll (fun _ => some [65, 255, 66])
        (mesgWith 0 0 0) Queue.empty (mesgWith LISTEN_MSG 1234 1)) = some ms ∧
      ∀ m ∈ ms, 0 ≤ m.mesg_len ∧ m.mesg_len ≤ 4095 ∧ m.mesg_data m.mesg_len.toNat = 0 :=
  writes_in_bounds_and_terminated acceptAll (fun _ => some [65, 255, 66]) (mesgWith 0 0 0)
    (mesgWith LISTEN_MSG 1234 1) [65, 255, 66] rfl (by decide)

end Assn2
